import Mathlib

/-!
Verification of the order-statistic AVL tree engine (src/avl_tree/avl_tree.cpp).

The C++ node type `avl_node<_Element, _Size, _Range_Type_Intermediate>` is
embedded as the inductive `Tree α ι` below: a subtree is either the null
pointer (`nil`) or a node carrying its left child, payload value, right child,
cached subtree size, balance factor, and cached range intermediate.

Mutating helper functions of the source become pure functions returning the
new subtree root together with the extra outputs the C++ functions return.
`std::out_of_range` is modelled by `Option`: `none` is a thrown OutOfRange.
The merge protocol `bool _merge(E &to, const E &from)` (which may mutate the
target in place on success) is modelled as `α → α → Option α`, `some t2`
meaning the merge succeeded and left the target holding `t2`, and `none`
meaning the merge refused.
-/

namespace avl

/-- Embedding of `avl_node`: `nil` is the null subtree pointer, `node` carries
`left`, `value`, `right`, `size`, `balance` and `subrange` exactly as the C++
class does. -/
inductive Tree (α : Type) (ι : Type) where
  | nil : Tree α ι
  | node (left : Tree α ι) (value : α) (right : Tree α ι)
      (size : Nat) (balance : Int) (subrange : ι) : Tree α ι
deriving DecidableEq

variable {α ι : Type}

/-- The `node == nullptr` test of the source. -/
def Tree.isNil : Tree α ι → Bool
  | .nil => true
  | .node _ _ _ _ _ _ => false

/-- Read a node's stored balance factor (`node->balance`); 0 for the null
subtree, which the source never reads. -/
def balanceOf : Tree α ι → Int
  | .nil => 0
  | .node _ _ _ _ bal _ => bal

/-- `avl_node_size`: 0 for the null subtree, otherwise the cached `size`
field. -/
def avl_node_size : Tree α ι → Nat
  | .nil => 0
  | .node _ _ _ sz _ _ => sz

/-- `avl_node::update`: rebuild a node from children `l`, `r`, value `v` and
balance `bal`, recomputing `size` and `subrange` from the children's cached
fields exactly as the C++ method does (size starts at 1, subrange at
`_rpre(value)`, then each non-null child is folded in). -/
def avl_update (l : Tree α ι) (v : α) (r : Tree α ι) (bal : Int)
    (rpre : α → ι) (rcomb : ι → ι → ι) : Tree α ι :=
  let s1 : Nat := 1
  let u1 : ι := rpre v
  let s2 : Nat := match l with | .nil => s1 | .node _ _ _ ls _ _ => ls + s1
  let u2 : ι := match l with | .nil => u1 | .node _ _ _ _ _ lu => rcomb lu u1
  let s3 : Nat := match r with | .nil => s2 | .node _ _ _ rs _ _ => s2 + rs
  let u3 : ι := match r with | .nil => u2 | .node _ _ _ _ _ ru => rcomb u2 ru
  Tree.node l v r s3 bal u3

/-- `avl_node::rotate_left`. The source is a method on a node and requires
`this->right != nullptr` (otherwise it would dereference null); the
unreachable cases return the input unchanged. Balance updates follow the
source: `this->balance -= 1 + max(0, pivot->balance)` and then
`pivot->balance -= 1 - min(0, this->balance)` using the already-updated
balance of `this`; `update` runs on the demoted node first. -/
def rotate_left (t : Tree α ι) (rpre : α → ι) (rcomb : ι → ι → ι) : Tree α ι :=
  match t with
  | .nil => .nil
  | .node l v r sz bal sub =>
    match r with
    | .nil => .node l v r sz bal sub
    | .node pl pv pr _ pbal _ =>
      let nbal : Int := bal - (1 + max 0 pbal)
      let npbal : Int := pbal - (1 - min 0 nbal)
      avl_update (avl_update l v pl nbal rpre rcomb) pv pr npbal rpre rcomb

/-- `avl_node::rotate_right`, the mirror of `rotate_left`; requires
`this->left != nullptr` in the source. -/
def rotate_right (t : Tree α ι) (rpre : α → ι) (rcomb : ι → ι → ι) : Tree α ι :=
  match t with
  | .nil => .nil
  | .node l v r sz bal sub =>
    match l with
    | .nil => .node l v r sz bal sub
    | .node pl pv pr _ pbal _ =>
      let nbal : Int := bal + (1 - min 0 pbal)
      let npbal : Int := pbal + (1 + max 0 nbal)
      avl_update pl pv (avl_update pr v r nbal rpre rcomb) npbal rpre rcomb

/-- `avl_node::ensure_not_right_heavy`: `if (balance <= 0) return this;`
otherwise rotate left. -/
def ensure_not_right_heavy (t : Tree α ι) (rpre : α → ι) (rcomb : ι → ι → ι) : Tree α ι :=
  match t with
  | .nil => .nil
  | .node l v r sz bal sub =>
    if bal ≤ 0 then .node l v r sz bal sub
    else rotate_left (.node l v r sz bal sub) rpre rcomb

/-- `avl_node::ensure_not_left_heavy`: `if (balance >= 0) return this;`
otherwise rotate right. -/
def ensure_not_left_heavy (t : Tree α ι) (rpre : α → ι) (rcomb : ι → ι → ι) : Tree α ι :=
  match t with
  | .nil => .nil
  | .node l v r sz bal sub =>
    if 0 ≤ bal then .node l v r sz bal sub
    else rotate_right (.node l v r sz bal sub) rpre rcomb

/-- `avl_node::rebalance_right_heavy`: first make the right child not left
heavy (only when it is non-null, as the source guards), then rotate left. -/
def rebalance_right_heavy (t : Tree α ι) (rpre : α → ι) (rcomb : ι → ι → ι) : Tree α ι :=
  match t with
  | .nil => .nil
  | .node l v r sz bal sub =>
    let r2 := if r.isNil then r else ensure_not_left_heavy r rpre rcomb
    rotate_left (.node l v r2 sz bal sub) rpre rcomb

/-- `avl_node::rebalance_left_heavy`, the mirror. -/
def rebalance_left_heavy (t : Tree α ι) (rpre : α → ι) (rcomb : ι → ι → ι) : Tree α ι :=
  match t with
  | .nil => .nil
  | .node l v r sz bal sub =>
    let l2 := if l.isNil then l else ensure_not_right_heavy l rpre rcomb
    rotate_right (.node l2 v r sz bal sub) rpre rcomb

/-- `avl_node_get_at_index`. NOTE: the third branch of the source recurses
into `node->left` (not `node->right`): the line
`return avl_node_get_at_index(node->left, index - (left_size + _Size(1)));`
is reproduced faithfully. -/
def avl_node_get_at_index : Tree α ι → Nat → Option α
  | .nil, _ => none
  | .node l v _ _ _ _, index =>
    let left_size := avl_node_size l
    if index = left_size then some v
    else if index < left_size then avl_node_get_at_index l index
    else avl_node_get_at_index l (index - (left_size + 1))

/-- `avl_node_insert_at_index`. `none` models the thrown `std::out_of_range`.
NOTE: the merge-success branch returns `true` as the height-change flag,
exactly as the source's `return std::make_pair(node, true);` does. -/
def avl_node_insert_at_index (t : Tree α ι) (index : Nat) (value : α)
    (mrg : α → α → Option α) (rpre : α → ι) (rcomb : ι → ι → ι) :
    Option (Tree α ι × Bool) :=
  match t with
  | .nil =>
    if index ≠ 0 then none
    else some (Tree.node .nil value .nil 1 0 (rpre value), true)
  | .node l v r sz bal sub =>
    match mrg v value with
    | some v2 => some (Tree.node l v2 r sz bal sub, true)
    | none =>
      let left_size := avl_node_size l
      if index ≤ left_size then
        match avl_node_insert_at_index l index value mrg rpre rcomb with
        | none => none
        | some (l2, taller) =>
          let bal2 : Int := bal - (if taller then 1 else 0)
          if taller = false ∨ bal2 = 0 then
            some (avl_update l2 v r bal2 rpre rcomb, false)
          else if bal2 = -1 then
            some (avl_update l2 v r bal2 rpre rcomb, true)
          else
            some (rebalance_left_heavy (Tree.node l2 v r sz bal2 sub) rpre rcomb, false)
      else
        match avl_node_insert_at_index r (index - (avl_node_size l + 1)) value mrg rpre rcomb with
        | none => none
        | some (r2, taller) =>
          let bal2 : Int := bal + (if taller then 1 else 0)
          if taller = false ∨ bal2 = 0 then
            some (avl_update l v r2 bal2 rpre rcomb, false)
          else if bal2 = 1 then
            some (avl_update l v r2 bal2 rpre rcomb, true)
          else
            some (rebalance_right_heavy (Tree.node l v r2 sz bal2 sub) rpre rcomb, false)

/-- `avl_node_insert_ordered`. Never fails; returns
(new root, whether it got taller, index of the inserted/merged value).
On merge the reported flag is `false` (line `return std::make_tuple(node,
false, 0);`), unlike the positional insert. -/
def avl_node_insert_ordered (t : Tree α ι) (value : α) (less : α → α → Bool)
    (mrg : α → α → Option α) (rpre : α → ι) (rcomb : ι → ι → ι) :
    Tree α ι × Bool × Nat :=
  match t with
  | .nil => (Tree.node .nil value .nil 1 0 (rpre value), true, 0)
  | .node l v r sz bal sub =>
    match mrg v value with
    | some v2 => (Tree.node l v2 r sz bal sub, false, 0)
    | none =>
      if !(less v value) then
        let p := avl_node_insert_ordered l value less mrg rpre rcomb
        let l2 := p.1
        let taller := p.2.1
        let index := p.2.2
        let bal2 : Int := bal - (if taller then 1 else 0)
        if taller = false ∨ bal2 = 0 then
          (avl_update l2 v r bal2 rpre rcomb, false, index)
        else if bal2 = -1 then
          (avl_update l2 v r bal2 rpre rcomb, true, index)
        else
          (rebalance_left_heavy (Tree.node l2 v r sz bal2 sub) rpre rcomb, false, index)
      else
        let p := avl_node_insert_ordered r value less mrg rpre rcomb
        let r2 := p.1
        let taller := p.2.1
        let index := avl_node_size l + 1 + p.2.2
        let bal2 : Int := bal + (if taller then 1 else 0)
        if taller = false ∨ bal2 = 0 then
          (avl_update l v r2 bal2 rpre rcomb, false, index)
        else if bal2 = 1 then
          (avl_update l v r2 bal2 rpre rcomb, true, index)
        else
          (rebalance_right_heavy (Tree.node l v r2 sz bal2 sub) rpre rcomb, false, index)

/-- The "right child shrank" balance adjustment block that
`avl_node_remove_at_index` and `avl_node_remove_ordered` repeat verbatim
(`node->balance -= shorter; if (!shorter || node->balance == -1) ... else if
(node->balance == 0) ... else rebalance_left_heavy; shorter = node->balance
== 0`), factored out so it can be stated about once. Takes the node's fields
after the right child has been replaced by `r`. -/
def adjustShrankRight (l : Tree α ι) (v : α) (r : Tree α ι) (bal : Int) (sz : Nat) (sub : ι)
    (shorter : Bool) (rpre : α → ι) (rcomb : ι → ι → ι) : Tree α ι × Bool :=
  let bal2 : Int := bal - (if shorter then 1 else 0)
  if shorter = false ∨ bal2 = -1 then (avl_update l v r bal2 rpre rcomb, false)
  else if bal2 = 0 then (avl_update l v r bal2 rpre rcomb, true)
  else
    let n := rebalance_left_heavy (Tree.node l v r sz bal2 sub) rpre rcomb
    (n, balanceOf n == 0)

/-- The mirrored "left child shrank" adjustment block of the removal
functions (`node->balance += shorter; ... rebalance_right_heavy ...`). -/
def adjustShrankLeft (l : Tree α ι) (v : α) (r : Tree α ι) (bal : Int) (sz : Nat) (sub : ι)
    (shorter : Bool) (rpre : α → ι) (rcomb : ι → ι → ι) : Tree α ι × Bool :=
  let bal2 : Int := bal + (if shorter then 1 else 0)
  if shorter = false ∨ bal2 = 1 then (avl_update l v r bal2 rpre rcomb, false)
  else if bal2 = 0 then (avl_update l v r bal2 rpre rcomb, true)
  else
    let n := rebalance_right_heavy (Tree.node l v r sz bal2 sub) rpre rcomb
    (n, balanceOf n == 0)

/-- `avl_node_remove_at_index`. `none` models the thrown `std::out_of_range`.
Returns (new root, whether it got shorter, removed element). The null checks
mirror the source's ordering: both children null, then left null, then right
null, then the two-children case extracting the in-order successor with
`avl_node_remove_at_index(node->right, 0, ...)`. -/
def avl_node_remove_at_index (t : Tree α ι) (index : Nat)
    (rpre : α → ι) (rcomb : ι → ι → ι) : Option (Tree α ι × Bool × α) :=
  match t with
  | .nil => none
  | .node l v r sz bal sub =>
    let left_size := avl_node_size l
    if index = left_size then
      if l.isNil && r.isNil then some (Tree.nil, true, v)
      else if l.isNil then some (r, true, v)
      else if r.isNil then some (l, true, v)
      else
        match avl_node_remove_at_index r 0 rpre rcomb with
        | none => none
        | some (r2, shorter, succ) =>
          let q := adjustShrankRight l succ r2 bal sz sub shorter rpre rcomb
          some (q.1, q.2, v)
    else if index < left_size then
      match avl_node_remove_at_index l index rpre rcomb with
      | none => none
      | some (l2, shorter, result) =>
        let q := adjustShrankLeft l2 v r bal sz sub shorter rpre rcomb
        some (q.1, q.2, result)
    else
      match avl_node_remove_at_index r (index - (left_size + 1)) rpre rcomb with
      | none => none
      | some (r2, shorter, result) =>
        let q := adjustShrankRight l v r2 bal sz sub shorter rpre rcomb
        some (q.1, q.2, result)

/-- `avl_node_remove_ordered`. Search is by exact `==` at the node, else by
`_less(value, node->value)` to choose the side. On a null subtree returns
`(null, false, empty optional)`. The `Option` wrapper only propagates the
(unreachable) OutOfRange of the inner successor extraction. On a fruitless
recursion (`if (!index)`) the node is returned with balance untouched. -/
def avl_node_remove_ordered [DecidableEq α] (t : Tree α ι) (value : α) (less : α → α → Bool)
    (rpre : α → ι) (rcomb : ι → ι → ι) : Option (Tree α ι × Bool × Option Nat) :=
  match t with
  | .nil => some (Tree.nil, false, none)
  | .node l v r sz bal sub =>
    if v = value then
      let index : Option Nat := some (avl_node_size l)
      if l.isNil && r.isNil then some (Tree.nil, true, index)
      else if l.isNil then some (r, true, index)
      else if r.isNil then some (l, true, index)
      else
        match avl_node_remove_at_index r 0 rpre rcomb with
        | none => none
        | some (r2, shorter, succ) =>
          let q := adjustShrankRight l succ r2 bal sz sub shorter rpre rcomb
          some (q.1, q.2, index)
    else if less value v then
      match avl_node_remove_ordered l value less rpre rcomb with
      | none => none
      | some (l2, shorter, idx) =>
        match idx with
        | none => some (Tree.node l2 v r sz bal sub, false, none)
        | some i =>
          let q := adjustShrankLeft l2 v r bal sz sub shorter rpre rcomb
          some (q.1, q.2, some i)
    else
      match avl_node_remove_ordered r value less rpre rcomb with
      | none => none
      | some (r2, shorter, idx) =>
        match idx with
        | none => some (Tree.node l v r2 sz bal sub, false, none)
        | some i =>
          let i2 := avl_node_size l + 1 + i
          let q := adjustShrankRight l v r2 bal sz sub shorter rpre rcomb
          some (q.1, q.2, some i2)

/-- `avl_node_replace_at_index`: remove at the index, insert the new value at
the same index, report whether the size changed (a merge happened). -/
def avl_node_replace_at_index (t : Tree α ι) (index : Nat) (new_value : α)
    (mrg : α → α → Option α) (rpre : α → ι) (rcomb : ι → ι → ι) :
    Option (Tree α ι × Bool) :=
  let old_size := avl_node_size t
  match avl_node_remove_at_index t index rpre rcomb with
  | none => none
  | some (t2, _, _) =>
    match avl_node_insert_at_index t2 index new_value mrg rpre rcomb with
    | none => none
    | some (t3, _) =>
      some (t3, !(old_size == avl_node_size t3))

/-- `avl_node_replace_ordered`: ordered remove of the old value; if nothing
was removed return the original root unchanged, else ordered insert of the
new value, with the reported removal index shifted right by 1 when the
insertion landed at or before it and no merge occurred. -/
def avl_node_replace_ordered [DecidableEq α] (t : Tree α ι) (old_value new_value : α)
    (less : α → α → Bool) (mrg : α → α → Option α)
    (rpre : α → ι) (rcomb : ι → ι → ι) :
    Option (Tree α ι × Bool × Option (Nat × Nat)) :=
  let old_size := avl_node_size t
  match avl_node_remove_ordered t old_value less rpre rcomb with
  | none => none
  | some (t2, _, remove_index) =>
    match remove_index with
    | none => some (t, false, none)
    | some ri =>
      let p := avl_node_insert_ordered t2 new_value less mrg rpre rcomb
      let t3 := p.1
      let insert_index := p.2.2
      let did_merge := !(old_size == avl_node_size t3)
      let corrected := ri + (if insert_index ≤ ri ∧ did_merge = false then 1 else 0)
      some (t3, did_merge, some (corrected, insert_index))

/-- The `no_merge` merger: always refuses. -/
def no_merge : α → α → Option α := fun _ _ => none

/-- The `merge_if_equal` merger: `return to == from;`, leaving the target
unchanged on success. -/
def merge_if_equal [DecidableEq α] : α → α → Option α :=
  fun a b => if a = b then some a else none

/-- The `merge_count` merger on pairs:
`if (to != from) return false; to.second += from.second; return true;` —
note it compares the WHOLE pairs with `!=`, exactly as the source does. -/
def merge_count {γ χ : Type} [DecidableEq γ] [DecidableEq χ] [Add χ] :
    γ × χ → γ × χ → Option (γ × χ) :=
  fun a b => if a ≠ b then none else some (a.1, a.2 + b.2)

/-! Observation functions and the spec's invariants (spec.md §3 and §8).
These are the verification-side definitions the theorems are stated with;
they read the tree only and appear nowhere in the operational code above. -/

/-- Height of a subtree (a null subtree has height 0). -/
def height : Tree α ι → Nat
  | .nil => 0
  | .node l _ r _ _ _ => 1 + max (height l) (height r)

/-- In-order traversal of the subtree. -/
def toList : Tree α ι → List α
  | .nil => []
  | .node l v r _ _ _ => toList l ++ v :: toList r

/-- The size invariant of spec.md §3: every node's cached `size` equals
`1 + size(left) + size(right)`. -/
def sizeOk : Tree α ι → Bool
  | .nil => true
  | .node l _ r sz _ _ =>
      sizeOk l && sizeOk r && (sz == 1 + avl_node_size l + avl_node_size r)

/-- The balance invariant of spec.md §3: every node's `balance` equals
`height(right) - height(left)` and has absolute value at most 1. -/
def balanceOk : Tree α ι → Bool
  | .nil => true
  | .node l _ r _ bal _ =>
      balanceOk l && balanceOk r &&
      (bal == (height r : Int) - (height l : Int)) && decide (bal.natAbs ≤ 1)

/-- The cached aggregate of a subtree, or the supplied zero for the null
subtree (spec.md §3, invariant 3). -/
def subOr (zero : ι) : Tree α ι → ι
  | .nil => zero
  | .node _ _ _ _ _ sub => sub

/-- The steady-state invariants of spec.md §3 / §8 at every node: balance
correct and small, size correct, and the cached aggregate equal to
`combine(combine(left_or_zero, preprocess(value)), right_or_zero)`. -/
def steadyStateOk [DecidableEq ι] (rpre : α → ι) (rcomb : ι → ι → ι) (zero : ι) :
    Tree α ι → Bool
  | .nil => true
  | .node l v r sz bal sub =>
      steadyStateOk rpre rcomb zero l && steadyStateOk rpre rcomb zero r &&
      (bal == (height r : Int) - (height l : Int)) && decide (bal.natAbs ≤ 1) &&
      (sz == 1 + avl_node_size l + avl_node_size r) &&
      (sub == rcomb (rcomb (subOr zero l) (rpre v)) (subOr zero r))

/-- Whether the search descent of `avl_node_remove_ordered` (exact `==` at
the node, `_less` to pick a side) finds a node comparing equal to `value`. -/
def foundOnPath [DecidableEq α] (less : α → α → Bool) : Tree α ι → α → Bool
  | .nil, _ => false
  | .node l v r _ _ _, value =>
    if v = value then true
    else if less value v then foundOnPath less l value
    else foundOnPath less r value

/-- Consultation trace of `avl_node_insert_at_index`: the list of node
elements passed to `_merge`, in call order. Derived from the source by
replacing each returned value with the list of `_merge(node->value, value)`
consultations that the call performs. -/
def insert_at_consults (t : Tree α ι) (index : Nat) (value : α)
    (mrg : α → α → Option α) : List α :=
  match t with
  | .nil => []
  | .node l v r _ _ _ =>
    match mrg v value with
    | some _ => [v]
    | none =>
      let left_size := avl_node_size l
      if index ≤ left_size then
        v :: insert_at_consults l index value mrg
      else
        v :: insert_at_consults r (index - (avl_node_size l + 1)) value mrg

/-- Consultation trace of `avl_node_insert_ordered`, analogously. -/
def insert_ordered_consults (t : Tree α ι) (value : α) (less : α → α → Bool)
    (mrg : α → α → Option α) : List α :=
  match t with
  | .nil => []
  | .node l v r _ _ _ =>
    match mrg v value with
    | some _ => [v]
    | none =>
      if !(less v value) then v :: insert_ordered_consults l value less mrg
      else v :: insert_ordered_consults r value less mrg

/-- The elements on the positional descent path of `insert_at`, determined by
the index arithmetic alone (root first; left when `i ≤ size(left)`, else
right with `i - size(left) - 1`). -/
def insert_at_descent (t : Tree α ι) (index : Nat) : List α :=
  match t with
  | .nil => []
  | .node l v r _ _ _ =>
    if index ≤ avl_node_size l then v :: insert_at_descent l index
    else v :: insert_at_descent r (index - (avl_node_size l + 1))

/-- The elements on the comparison descent path of `insert_ordered` (root
first; left when `not less(node.value, v)`, else right). -/
def insert_ordered_descent (t : Tree α ι) (value : α) (less : α → α → Bool) : List α :=
  match t with
  | .nil => []
  | .node l v r _ _ _ =>
    if !(less v value) then v :: insert_ordered_descent l value less
    else v :: insert_ordered_descent r value less

/-! Concrete instantiations used to evaluate the operations on small inputs.
`Unit` plays the role of the default `monostate` aggregate: the preprocess
maps every element to `()` and the combine is the trivial one. -/

/-- Trivial (monostate-style) range preprocess on `Nat` elements. -/
def natPre : Nat → Unit := fun _ => ()

/-- Trivial (monostate-style) range preprocess on pairs. -/
def pairPre : Nat × Nat → Unit := fun _ => ()

/-- Trivial (monostate-style) range combine. -/
def unitComb : Unit → Unit → Unit := fun _ _ => ()

/-- Natural strict order on `Nat`, as the `_less` callable. -/
def natLess : Nat → Nat → Bool := fun a b => decide (a < b)

/-- Lexicographic strict order on pairs, as `std::less<std::pair>` compares. -/
def pairLess : Nat × Nat → Nat × Nat → Bool :=
  fun a b => decide (a.1 < b.1 ∨ (a.1 = b.1 ∧ a.2 < b.2))

/-- The in-order tree `[100, 300]`: root 100 with right child 300, exactly as
the source's test main builds it. -/
def fixT100 : Tree Nat Unit :=
  Tree.node Tree.nil 100 (Tree.node Tree.nil 300 Tree.nil 1 0 ()) 2 1 ()

/-- A single-node tree holding 5. -/
def fixT5 : Tree Nat Unit := Tree.node Tree.nil 5 Tree.nil 1 0 ()

/-- The in-order tree `[1, 2]`: root 1 with right child 2. -/
def fixT12 : Tree Nat Unit :=
  Tree.node Tree.nil 1 (Tree.node Tree.nil 2 Tree.nil 1 0 ()) 2 1 ()

/-- The in-order tree `[10, 20]`: root 10 with right child 20. -/
def fixT1020 : Tree Nat Unit :=
  Tree.node Tree.nil 10 (Tree.node Tree.nil 20 Tree.nil 1 0 ()) 2 1 ()

/-- One ordered insertion step of scenario S5: merge-by-count merger,
lexicographic pair order, monostate aggregate. -/
def s5insert (t : Tree (Nat × Nat) Unit) (v : Nat × Nat) : Tree (Nat × Nat) Unit :=
  (avl_node_insert_ordered t v pairLess merge_count pairPre unitComb).1

/-- The tree after scenario S5's five ordered insertions
(1,1), (2,1), (1,1), (3,1), (1,1) into the empty tree. -/
def s5final : Tree (Nat × Nat) Unit :=
  s5insert (s5insert (s5insert (s5insert (s5insert Tree.nil (1, 1)) (2, 1)) (1, 1)) (3, 1)) (1, 1)

/-! General list lemmas used to reason about in-order traversals. -/

theorem insertIdx_append_left {β : Type} (a : β) :
    ∀ (xs ys : List β) (i : Nat), i ≤ xs.length →
      (xs ++ ys).insertIdx i a = xs.insertIdx i a ++ ys
  | _, _, 0, _ => by simp [List.insertIdx]
  | [], _, i + 1, h => (Nat.not_succ_le_zero i h).elim
  | x :: xs, ys, i + 1, h => by
      rw [List.cons_append, List.insertIdx_succ_cons, List.insertIdx_succ_cons,
        insertIdx_append_left a xs ys i (Nat.le_of_succ_le_succ h), List.cons_append]

theorem insertIdx_append_shift {β : Type} (a : β) :
    ∀ (xs ys : List β) (k : Nat),
      (xs ++ ys).insertIdx (xs.length + k) a = xs ++ ys.insertIdx k a
  | [], _, _ => by simp
  | x :: xs, ys, k => by
      have h : (x :: xs).length + k = (xs.length + k) + 1 := by
        simp [List.length_cons]; omega
      rw [List.cons_append, h, List.insertIdx_succ_cons,
        insertIdx_append_shift a xs ys k, List.cons_append]

theorem getElem?_append_mid {β : Type} (xs ys : List β) (y : β) :
    (xs ++ y :: ys)[xs.length]? = some y := by
  rw [List.getElem?_append_right (Nat.le_refl _)]
  simp

theorem getElem?_append_far {β : Type} (xs ys : List β) (y : β) (i : Nat)
    (h : xs.length < i) : (xs ++ y :: ys)[i]? = ys[i - xs.length - 1]? := by
  rw [List.getElem?_append_right (Nat.le_of_lt h)]
  rcases Nat.exists_eq_add_of_lt h with ⟨k, rfl⟩
  have h1 : xs.length + k + 1 - xs.length = k + 1 := by omega
  rw [h1]
  simp

/-! Structural lemmas about the embedded tree operations. -/

theorem toList_node (l : Tree α ι) (v : α) (r : Tree α ι) (sz : Nat) (bal : Int) (sub : ι) :
    toList (Tree.node l v r sz bal sub) = toList l ++ v :: toList r := rfl

theorem isNil_false_iff (t : Tree α ι) : t.isNil = false ↔ toList t ≠ [] := by
  cases t <;> simp [Tree.isNil, toList]

theorem sizeOk_node_iff (l : Tree α ι) (v : α) (r : Tree α ι) (sz : Nat) (bal : Int) (sub : ι) :
    sizeOk (Tree.node l v r sz bal sub) = true ↔
      sizeOk l = true ∧ sizeOk r = true ∧ sz = 1 + avl_node_size l + avl_node_size r := by
  simp [sizeOk, Bool.and_eq_true, beq_iff_eq, and_assoc]

theorem size_eq_length (t : Tree α ι) (h : sizeOk t = true) :
    avl_node_size t = (toList t).length := by
  induction t with
  | nil => rfl
  | node l v r sz bal sub ihl ihr =>
      rw [sizeOk_node_iff] at h
      obtain ⟨h1, h2, h3⟩ := h
      rw [avl_node_size, toList_node, h3, List.length_append, List.length_cons,
        ihl h1, ihr h2]
      omega

theorem steadyStateOk_sizeOk [DecidableEq ι] (rpre : α → ι) (rcomb : ι → ι → ι) (zero : ι)
    (t : Tree α ι) (h : steadyStateOk rpre rcomb zero t = true) : sizeOk t = true := by
  induction t with
  | nil => rfl
  | node l v r sz bal sub ihl ihr =>
      simp only [steadyStateOk, Bool.and_eq_true, beq_iff_eq, decide_eq_true_eq] at h
      obtain ⟨⟨⟨⟨⟨hl, hr⟩, _⟩, _⟩, hsz⟩, _⟩ := h
      rw [sizeOk_node_iff]
      exact ⟨ihl hl, ihr hr, hsz⟩

theorem avl_update_shape (l : Tree α ι) (v : α) (r : Tree α ι) (bal : Int)
    (rpre : α → ι) (rcomb : ι → ι → ι) :
    ∃ sz sub, avl_update l v r bal rpre rcomb = Tree.node l v r sz bal sub := by
  cases l <;> cases r <;> exact ⟨_, _, rfl⟩

theorem toList_avl_update (l : Tree α ι) (v : α) (r : Tree α ι) (bal : Int)
    (rpre : α → ι) (rcomb : ι → ι → ι) :
    toList (avl_update l v r bal rpre rcomb) = toList l ++ v :: toList r := by
  obtain ⟨sz, sub, h⟩ := avl_update_shape l v r bal rpre rcomb
  rw [h, toList_node]

theorem isNil_avl_update (l : Tree α ι) (v : α) (r : Tree α ι) (bal : Int)
    (rpre : α → ι) (rcomb : ι → ι → ι) :
    (avl_update l v r bal rpre rcomb).isNil = false := by
  obtain ⟨sz, sub, h⟩ := avl_update_shape l v r bal rpre rcomb
  rw [h]; rfl

theorem avl_node_size_avl_update (l : Tree α ι) (v : α) (r : Tree α ι) (bal : Int)
    (rpre : α → ι) (rcomb : ι → ι → ι) :
    avl_node_size (avl_update l v r bal rpre rcomb)
      = 1 + avl_node_size l + avl_node_size r := by
  cases l <;> cases r <;> simp [avl_update, avl_node_size] <;> omega

theorem sizeOk_avl_update (l : Tree α ι) (v : α) (r : Tree α ι) (bal : Int)
    (rpre : α → ι) (rcomb : ι → ι → ι)
    (hl : sizeOk l = true) (hr : sizeOk r = true) :
    sizeOk (avl_update l v r bal rpre rcomb) = true := by
  obtain ⟨sz, sub, h⟩ := avl_update_shape l v r bal rpre rcomb
  have hs := avl_node_size_avl_update l v r bal rpre rcomb
  rw [h] at hs
  rw [h, sizeOk_node_iff]
  exact ⟨hl, hr, hs⟩

theorem toList_rotate_left (t : Tree α ι) (rpre : α → ι) (rcomb : ι → ι → ι) :
    toList (rotate_left t rpre rcomb) = toList t := by
  cases t with
  | nil => rfl
  | node l v r sz bal sub =>
      cases r with
      | nil => rfl
      | node pl pv pr psz pbal psub =>
          simp [rotate_left, toList_avl_update, toList_node]

theorem toList_rotate_right (t : Tree α ι) (rpre : α → ι) (rcomb : ι → ι → ι) :
    toList (rotate_right t rpre rcomb) = toList t := by
  cases t with
  | nil => rfl
  | node l v r sz bal sub =>
      cases l with
      | nil => rfl
      | node pl pv pr psz pbal psub =>
          simp [rotate_right, toList_avl_update, toList_node]

theorem isNil_rotate_left (t : Tree α ι) (rpre : α → ι) (rcomb : ι → ι → ι) :
    (rotate_left t rpre rcomb).isNil = t.isNil := by
  cases t with
  | nil => rfl
  | node l v r sz bal sub =>
      cases r with
      | nil => rfl
      | node pl pv pr psz pbal psub =>
          simp only [rotate_left]
          rw [isNil_avl_update]
          rfl

theorem isNil_rotate_right (t : Tree α ι) (rpre : α → ι) (rcomb : ι → ι → ι) :
    (rotate_right t rpre rcomb).isNil = t.isNil := by
  cases t with
  | nil => rfl
  | node l v r sz bal sub =>
      cases l with
      | nil => rfl
      | node pl pv pr psz pbal psub =>
          simp only [rotate_right]
          rw [isNil_avl_update]
          rfl

theorem sizeOk_rotate_left (t : Tree α ι) (rpre : α → ι) (rcomb : ι → ι → ι)
    (h : sizeOk t = true) : sizeOk (rotate_left t rpre rcomb) = true := by
  cases t with
  | nil => exact h
  | node l v r sz bal sub =>
      cases r with
      | nil => exact h
      | node pl pv pr psz pbal psub =>
          rw [sizeOk_node_iff] at h
          obtain ⟨hl, hr, _⟩ := h
          rw [sizeOk_node_iff] at hr
          obtain ⟨hpl, hpr, _⟩ := hr
          exact sizeOk_avl_update _ _ _ _ _ _ (sizeOk_avl_update _ _ _ _ _ _ hl hpl) hpr

theorem sizeOk_rotate_right (t : Tree α ι) (rpre : α → ι) (rcomb : ι → ι → ι)
    (h : sizeOk t = true) : sizeOk (rotate_right t rpre rcomb) = true := by
  cases t with
  | nil => exact h
  | node l v r sz bal sub =>
      cases l with
      | nil => exact h
      | node pl pv pr psz pbal psub =>
          rw [sizeOk_node_iff] at h
          obtain ⟨hl, hr, _⟩ := h
          rw [sizeOk_node_iff] at hl
          obtain ⟨hpl, hpr, _⟩ := hl
          exact sizeOk_avl_update _ _ _ _ _ _ hpl (sizeOk_avl_update _ _ _ _ _ _ hpr hr)

theorem sizeOk_rotate_left_stale (l : Tree α ι) (v : α) (r : Tree α ι) (sz : Nat)
    (bal : Int) (sub : ι) (rpre : α → ι) (rcomb : ι → ι → ι)
    (hl : sizeOk l = true) (hr : sizeOk r = true) (hn : r.isNil = false) :
    sizeOk (rotate_left (Tree.node l v r sz bal sub) rpre rcomb) = true := by
  cases r with
  | nil => exact absurd hn (by simp [Tree.isNil])
  | node pl pv pr psz pbal psub =>
      rw [sizeOk_node_iff] at hr
      obtain ⟨hpl, hpr, _⟩ := hr
      exact sizeOk_avl_update _ _ _ _ _ _ (sizeOk_avl_update _ _ _ _ _ _ hl hpl) hpr

theorem sizeOk_rotate_right_stale (l : Tree α ι) (v : α) (r : Tree α ι) (sz : Nat)
    (bal : Int) (sub : ι) (rpre : α → ι) (rcomb : ι → ι → ι)
    (hl : sizeOk l = true) (hr : sizeOk r = true) (hn : l.isNil = false) :
    sizeOk (rotate_right (Tree.node l v r sz bal sub) rpre rcomb) = true := by
  cases l with
  | nil => exact absurd hn (by simp [Tree.isNil])
  | node pl pv pr psz pbal psub =>
      rw [sizeOk_node_iff] at hl
      obtain ⟨hpl, hpr, _⟩ := hl
      exact sizeOk_avl_update _ _ _ _ _ _ hpl (sizeOk_avl_update _ _ _ _ _ _ hpr hr)

theorem toList_ensure_not_left_heavy (t : Tree α ι) (rpre : α → ι) (rcomb : ι → ι → ι) :
    toList (ensure_not_left_heavy t rpre rcomb) = toList t := by
  cases t with
  | nil => rfl
  | node l v r sz bal sub =>
      rw [ensure_not_left_heavy]
      split
      · rfl
      · rw [toList_rotate_right]

theorem toList_ensure_not_right_heavy (t : Tree α ι) (rpre : α → ι) (rcomb : ι → ι → ι) :
    toList (ensure_not_right_heavy t rpre rcomb) = toList t := by
  cases t with
  | nil => rfl
  | node l v r sz bal sub =>
      rw [ensure_not_right_heavy]
      split
      · rfl
      · rw [toList_rotate_left]

theorem isNil_ensure_not_left_heavy (t : Tree α ι) (rpre : α → ι) (rcomb : ι → ι → ι) :
    (ensure_not_left_heavy t rpre rcomb).isNil = t.isNil := by
  cases t with
  | nil => rfl
  | node l v r sz bal sub =>
      rw [ensure_not_left_heavy]
      split
      · rfl
      · rw [isNil_rotate_right]

theorem isNil_ensure_not_right_heavy (t : Tree α ι) (rpre : α → ι) (rcomb : ι → ι → ι) :
    (ensure_not_right_heavy t rpre rcomb).isNil = t.isNil := by
  cases t with
  | nil => rfl
  | node l v r sz bal sub =>
      rw [ensure_not_right_heavy]
      split
      · rfl
      · rw [isNil_rotate_left]

theorem sizeOk_ensure_not_left_heavy (t : Tree α ι) (rpre : α → ι) (rcomb : ι → ι → ι)
    (h : sizeOk t = true) : sizeOk (ensure_not_left_heavy t rpre rcomb) = true := by
  cases t with
  | nil => exact h
  | node l v r sz bal sub =>
      rw [ensure_not_left_heavy]
      split
      · exact h
      · exact sizeOk_rotate_right _ _ _ h

theorem sizeOk_ensure_not_right_heavy (t : Tree α ι) (rpre : α → ι) (rcomb : ι → ι → ι)
    (h : sizeOk t = true) : sizeOk (ensure_not_right_heavy t rpre rcomb) = true := by
  cases t with
  | nil => exact h
  | node l v r sz bal sub =>
      rw [ensure_not_right_heavy]
      split
      · exact h
      · exact sizeOk_rotate_left _ _ _ h

theorem toList_rebalance_left_heavy (t : Tree α ι) (rpre : α → ι) (rcomb : ι → ι → ι) :
    toList (rebalance_left_heavy t rpre rcomb) = toList t := by
  cases t with
  | nil => rfl
  | node l v r sz bal sub =>
      rw [rebalance_left_heavy, toList_rotate_right, toList_node, toList_node]
      split
      · rfl
      · rw [toList_ensure_not_right_heavy]

theorem toList_rebalance_right_heavy (t : Tree α ι) (rpre : α → ι) (rcomb : ι → ι → ι) :
    toList (rebalance_right_heavy t rpre rcomb) = toList t := by
  cases t with
  | nil => rfl
  | node l v r sz bal sub =>
      rw [rebalance_right_heavy, toList_rotate_left, toList_node, toList_node]
      split
      · rfl
      · rw [toList_ensure_not_left_heavy]

theorem sizeOk_rebalance_left_heavy_stale (l : Tree α ι) (v : α) (r : Tree α ι) (sz : Nat)
    (bal : Int) (sub : ι) (rpre : α → ι) (rcomb : ι → ι → ι)
    (hl : sizeOk l = true) (hr : sizeOk r = true) (hn : l.isNil = false) :
    sizeOk (rebalance_left_heavy (Tree.node l v r sz bal sub) rpre rcomb) = true := by
  rw [rebalance_left_heavy]
  rw [hn]
  simp only [Bool.false_eq_true, if_false]
  exact sizeOk_rotate_right_stale _ _ _ _ _ _ _ _
    (sizeOk_ensure_not_right_heavy _ _ _ hl) hr
    (by rw [isNil_ensure_not_right_heavy]; exact hn)

theorem sizeOk_rebalance_right_heavy_stale (l : Tree α ι) (v : α) (r : Tree α ι) (sz : Nat)
    (bal : Int) (sub : ι) (rpre : α → ι) (rcomb : ι → ι → ι)
    (hl : sizeOk l = true) (hr : sizeOk r = true) (hn : r.isNil = false) :
    sizeOk (rebalance_right_heavy (Tree.node l v r sz bal sub) rpre rcomb) = true := by
  rw [rebalance_right_heavy]
  rw [hn]
  simp only [Bool.false_eq_true, if_false]
  exact sizeOk_rotate_left_stale _ _ _ _ _ _ _ _ hl
    (sizeOk_ensure_not_left_heavy _ _ _ hr)
    (by rw [isNil_ensure_not_left_heavy]; exact hn)

theorem toList_adjustShrankRight (l : Tree α ι) (v : α) (r : Tree α ι) (bal : Int)
    (sz : Nat) (sub : ι) (sh : Bool) (rpre : α → ι) (rcomb : ι → ι → ι) :
    toList (adjustShrankRight l v r bal sz sub sh rpre rcomb).1
      = toList l ++ v :: toList r := by
  rw [adjustShrankRight]
  split_ifs <;>
    simp [toList_avl_update, toList_rebalance_left_heavy, toList_node]

theorem toList_adjustShrankLeft (l : Tree α ι) (v : α) (r : Tree α ι) (bal : Int)
    (sz : Nat) (sub : ι) (sh : Bool) (rpre : α → ι) (rcomb : ι → ι → ι) :
    toList (adjustShrankLeft l v r bal sz sub sh rpre rcomb).1
      = toList l ++ v :: toList r := by
  rw [adjustShrankLeft]
  split_ifs <;>
    simp [toList_avl_update, toList_rebalance_right_heavy, toList_node]

theorem insert_at_spec (mrg : α → α → Option α) (rpre : α → ι) (rcomb : ι → ι → ι)
    (value : α) (hm : ∀ a, mrg a value = none) :
    ∀ (t : Tree α ι) (i : Nat), sizeOk t = true → i ≤ (toList t).length →
    ∃ t2 g, avl_node_insert_at_index t i value mrg rpre rcomb = some (t2, g) ∧
      toList t2 = (toList t).insertIdx i value ∧ sizeOk t2 = true := by
  intro t
  induction t with
  | nil =>
      intro i _ hi
      have hi0 : i = 0 := by simpa [toList] using hi
      subst hi0
      refine ⟨Tree.node .nil value .nil 1 0 (rpre value), true, by simp [avl_node_insert_at_index], ?_, rfl⟩
      simp [toList, List.insertIdx]
  | node l v r sz bal sub ihl ihr =>
      intro i hsz hi
      rw [sizeOk_node_iff] at hsz
      obtain ⟨hl, hr, _⟩ := hsz
      have hlen : avl_node_size l = (toList l).length := size_eq_length l hl
      rw [toList_node, List.length_append, List.length_cons] at hi
      by_cases hc : i ≤ avl_node_size l
      · -- descend left
        obtain ⟨l2, g, heq, hlist, hsz2⟩ := ihl i hl (hlen ▸ hc)
        have hi_le : i ≤ (toList l).length := hlen ▸ hc
        have hlen2 : (toList l2).length = (toList l).length + 1 := by
          rw [hlist]; exact List.length_insertIdx _ _ hi_le
        have hnil2 : l2.isNil = false := by
          rw [isNil_false_iff]
          intro hn
          rw [hn] at hlen2
          simp at hlen2
        have hjoin : (toList (Tree.node l v r sz bal sub)).insertIdx i value
            = toList l2 ++ v :: toList r := by
          rw [toList_node, insertIdx_append_left value _ _ _ hi_le, hlist]
        simp only [avl_node_insert_at_index, hm v, if_pos hc, heq]
        split_ifs <;>
          first
            | exact ⟨_, _, rfl, by rw [toList_avl_update, hjoin],
                sizeOk_avl_update _ _ _ _ _ _ hsz2 hr⟩
            | exact ⟨_, _, rfl,
                by rw [toList_rebalance_left_heavy, toList_node, hjoin],
                sizeOk_rebalance_left_heavy_stale _ _ _ _ _ _ _ _ hsz2 hr hnil2⟩
      · -- descend right
        have hgt : avl_node_size l < i := Nat.lt_of_not_le hc
        have hk : i - (avl_node_size l + 1) ≤ (toList r).length := by omega
        obtain ⟨r2, g, heq, hlist, hsz2⟩ := ihr (i - (avl_node_size l + 1)) hr hk
        have hjoin : (toList (Tree.node l v r sz bal sub)).insertIdx i value
            = toList l ++ v :: toList r2 := by
          have hsplit : i = (toList l).length + ((i - (avl_node_size l + 1)) + 1) := by omega
          rw [toList_node, hsplit, insertIdx_append_shift, List.insertIdx_succ_cons, hlist]
        have hlen2 : (toList r2).length = (toList r).length + 1 := by
          rw [hlist]; exact List.length_insertIdx _ _ hk
        have hnil2 : r2.isNil = false := by
          rw [isNil_false_iff]
          intro hn
          rw [hn] at hlen2
          simp at hlen2
        simp only [avl_node_insert_at_index, hm v, if_neg hc, heq]
        split_ifs <;>
          first
            | exact ⟨_, _, rfl, by rw [toList_avl_update, hjoin],
                sizeOk_avl_update _ _ _ _ _ _ hl hsz2⟩
            | exact ⟨_, _, rfl,
                by rw [toList_rebalance_right_heavy, toList_node, hjoin],
                sizeOk_rebalance_right_heavy_stale _ _ _ _ _ _ _ _ hl hsz2 hnil2⟩

theorem getElem?_append_near {β : Type} (xs ys : List β) (i : Nat) (h : i < xs.length) :
    (xs ++ ys)[i]? = xs[i]? := by
  rw [List.getElem?_append]
  simp [h]

theorem isNil_nil : (Tree.nil : Tree α ι).isNil = true := rfl

theorem isNil_eq_nil (t : Tree α ι) (h : t.isNil = true) : t = Tree.nil := by
  cases t with
  | nil => rfl
  | node l v r sz bal sub => simp [Tree.isNil] at h

theorem length_toList_pos (t : Tree α ι) (h : t.isNil = false) : 0 < (toList t).length := by
  rw [isNil_false_iff] at h
  exact List.length_pos.mpr h

theorem remove_at_spec (rpre : α → ι) (rcomb : ι → ι → ι) :
    ∀ (t : Tree α ι) (i : Nat), sizeOk t = true → i < (toList t).length →
    ∃ t2 sh e, avl_node_remove_at_index t i rpre rcomb = some (t2, sh, e) ∧
      (toList t)[i]? = some e ∧ toList t2 = (toList t).eraseIdx i := by
  intro t
  induction t with
  | nil =>
      intro i _ hi
      simp [toList] at hi
  | node l v r sz bal sub ihl ihr =>
      intro i hsz hi
      rw [sizeOk_node_iff] at hsz
      obtain ⟨hl, hr, _⟩ := hsz
      have hlen : avl_node_size l = (toList l).length := size_eq_length l hl
      rw [toList_node, List.length_append, List.length_cons] at hi
      by_cases hceq : i = avl_node_size l
      · -- victim case
        subst hceq
        by_cases hln : l.isNil = true
        · have hl0 : l = Tree.nil := isNil_eq_nil _ hln
          subst hl0
          by_cases hrn : r.isNil = true
          · have hr0 : r = Tree.nil := isNil_eq_nil _ hrn
            subst hr0
            refine ⟨Tree.nil, true, v, ?_, ?_, ?_⟩
            · simp [avl_node_remove_at_index, isNil_nil]
            · simp [toList, avl_node_size]
            · simp [toList, avl_node_size]
          · simp only [Bool.not_eq_true] at hrn
            refine ⟨r, true, v, ?_, ?_, ?_⟩
            · simp [avl_node_remove_at_index, isNil_nil, hrn]
            · simp [toList, toList_node, avl_node_size]
            · simp [toList, toList_node, avl_node_size]
        · have hln2 : l.isNil = false := by
            cases hx : l.isNil
            · rfl
            · exact absurd hx hln
          by_cases hrn : r.isNil = true
          · have hr0 : r = Tree.nil := isNil_eq_nil _ hrn
            subst hr0
            refine ⟨l, true, v, ?_, ?_, ?_⟩
            · simp [avl_node_remove_at_index, isNil_nil, hln2]
            · rw [toList_node, hlen, getElem?_append_mid]
            · rw [toList_node, hlen,
                List.eraseIdx_append_of_length_le (Nat.le_refl _)]
              simp [toList]
          · have hrn2 : r.isNil = false := by
              cases hx : r.isNil
              · rfl
              · exact absurd hx hrn
            obtain ⟨r2, sh, e, heqr, hget, herase⟩ :=
              ihr 0 hr (length_toList_pos r hrn2)
            have hshape : toList r = e :: toList r2 := by
              rcases hx : toList r with _ | ⟨a, tl⟩
              · rw [hx] at hget
                simp at hget
              · rw [hx] at hget herase
                simp at hget
                subst hget
                rw [herase]
                simp
            refine ⟨(adjustShrankRight l e r2 bal sz sub sh rpre rcomb).1,
              (adjustShrankRight l e r2 bal sz sub sh rpre rcomb).2,
              v, ?_, ?_, ?_⟩
            · simp [avl_node_remove_at_index, hln2, hrn2, heqr]
            · rw [toList_node, hlen, getElem?_append_mid]
            · rw [toList_adjustShrankRight, toList_node, hlen,
                List.eraseIdx_append_of_length_le (Nat.le_refl _)]
              rw [← hshape]
              simp
      · by_cases hclt : i < avl_node_size l
        · -- descend left
          obtain ⟨l2, sh, e, heql, hget, herase⟩ := ihl i hl (hlen ▸ hclt)
          refine ⟨(adjustShrankLeft l2 v r bal sz sub sh rpre rcomb).1,
            (adjustShrankLeft l2 v r bal sz sub sh rpre rcomb).2, e, ?_, ?_, ?_⟩
          · simp only [avl_node_remove_at_index, if_neg hceq, if_pos hclt, heql]
          · rw [toList_node, getElem?_append_near _ _ _ (hlen ▸ hclt), hget]
          · rw [toList_adjustShrankLeft, toList_node,
              List.eraseIdx_append_of_lt_length (hlen ▸ hclt), herase]
        · -- descend right
          have hgt : avl_node_size l < i := by omega
          have hk : i - (avl_node_size l + 1) < (toList r).length := by omega
          obtain ⟨r2, sh, e, heqr, hget, herase⟩ := ihr (i - (avl_node_size l + 1)) hr hk
          refine ⟨(adjustShrankRight l v r2 bal sz sub sh rpre rcomb).1,
            (adjustShrankRight l v r2 bal sz sub sh rpre rcomb).2, e, ?_, ?_, ?_⟩
          · simp only [avl_node_remove_at_index, if_neg hceq, if_neg hclt, heqr]
          · rw [toList_node, getElem?_append_far _ _ _ _ (hlen ▸ hgt)]
            have : i - (toList l).length - 1 = i - (avl_node_size l + 1) := by omega
            rw [this, hget]
          · rw [toList_adjustShrankRight, toList_node,
              List.eraseIdx_append_of_length_le (by omega : (toList l).length ≤ i)]
            have : i - (toList l).length = (i - (avl_node_size l + 1)) + 1 := by omega
            rw [this, List.eraseIdx_cons_succ, herase]

/-! Claim theorems. -/

/-- C1: the claim fails on the code. Starting from the empty tree, the valid
calls insert_at(0, 1), insert_at(1, 2), insert_at(1, 2) with the standard
merge-if-equal merger produce a tree violating the balance invariant: the
third insert merges at the node holding 2, the source reports the merge as
growth (`return std::make_pair(node, true)`), the parent therefore
"rebalances" a balanced tree, and the resulting leaf holding 1 stores
balance 1 although height(right) - height(left) = 0 there. -/
theorem C1_merge_growth_breaks_balance :
    (Option.bind
        (avl_node_insert_at_index (Tree.nil : Tree Nat Unit) 0 1 merge_if_equal natPre unitComb)
        fun p1 =>
      Option.bind (avl_node_insert_at_index p1.1 1 2 merge_if_equal natPre unitComb) fun p2 =>
        avl_node_insert_at_index p2.1 1 2 merge_if_equal natPre unitComb)
      = some (Tree.node (Tree.node Tree.nil 1 Tree.nil 1 1 ()) 2 Tree.nil 2 (-1) (), false)
    ∧ balanceOk (Tree.node (Tree.node Tree.nil 1 Tree.nil 1 1 ()) 2 Tree.nil 2 (-1) ()) = false
    ∧ steadyStateOk natPre unitComb ()
        (Tree.node Tree.nil 1 (Tree.node Tree.nil 2 Tree.nil 1 0 ()) 2 1 ()) = true := by
  refine ⟨by decide, by decide, by decide⟩

/-- C2: the claim fails on the code. `avl_node_get_at_index` recurses into
`node->left` in its "on the right" branch (a typo the spec itself flags), so
on the steady tree [100, 300] the in-order element at position 1 is 300, yet
get_at(t, 1) descends into the null left child and throws OutOfRange. -/
theorem C2_get_at_right_case_goes_left :
    avl_node_get_at_index fixT100 1 = none
    ∧ (toList fixT100)[1]? = some 300
    ∧ steadyStateOk natPre unitComb () fixT100 = true := by
  refine ⟨by decide, by decide, by decide⟩

/-- C3: the claim fails on the code. On the single-node tree [5] with the
merge-if-equal merger, insert_at(t, 0, 5) is absorbed by the merge: no
structural change happens, yet the height-change flag reported to the caller
is `true`, not the `false` the spec requires. -/
theorem C3_merge_reported_as_growth :
    avl_node_insert_at_index fixT5 0 5 merge_if_equal natPre unitComb = some (fixT5, true) := by
  decide

/-- C4 counterexample: the claim that merge is consulted only at the single
node that would structurally receive the element is false. Inserting 30 at
index 2 of the steady tree [10, 20] (the new element lands in a fresh leaf,
so no existing node receives it) consults the never-succeeding merger with
the elements of BOTH nodes on the descent path, 10 and then 20. -/
theorem C4_counterexample_consults_whole_path :
    insert_at_consults fixT1020 2 30 no_merge = [10, 20]
    ∧ 1 < (insert_at_consults fixT1020 2 30 no_merge).length
    ∧ steadyStateOk natPre unitComb () fixT1020 = true := by
  refine ⟨by decide, by decide, by decide⟩

/-- C4 (amended): during insert_at and insert_ordered the merge function is
consulted with the element of every non-null node entered on the descent
path, root first, stopping at the first success; when no merge succeeds the
consultation sequence is exactly the full descent path determined by the
index arithmetic (positional) or by `less` (ordered). -/
theorem C4_merge_consulted_along_descent (mrg : α → α → Option α) (value : α)
    (less : α → α → Bool) (t : Tree α ι) (index : Nat)
    (hm : ∀ a, mrg a value = none) :
    insert_at_consults t index value mrg = insert_at_descent t index
    ∧ insert_ordered_consults t value less mrg = insert_ordered_descent t value less := by
  constructor
  · induction t generalizing index with
    | nil => rfl
    | node l v r sz bal sub ihl ihr =>
        simp only [insert_at_consults, insert_at_descent, hm v]
        split_ifs <;> simp [ihl, ihr]
  · induction t with
    | nil => rfl
    | node l v r sz bal sub ihl ihr =>
        simp only [insert_ordered_consults, insert_ordered_descent, hm v]
        split_ifs <;> simp [ihl, ihr]

/-- Witness for C4's amended theorem at a concrete input. -/
theorem C4_merge_consulted_along_descent_witness :
    (∀ a : Nat, no_merge a 30 = none)
    ∧ (insert_at_consults fixT1020 2 30 no_merge = insert_at_descent fixT1020 2
       ∧ insert_ordered_consults fixT1020 30 natLess no_merge
           = insert_ordered_descent fixT1020 30 natLess) :=
  ⟨fun _ => rfl,
   C4_merge_consulted_along_descent no_merge 30 natLess fixT1020 2 (fun _ => rfl)⟩

/-- C5: the claim fails on the code. `merge_count` compares the WHOLE pairs
(`if (to != from) return false;`), not only the keys, so (1,2) and (1,1) do
not merge although their keys are equal; running scenario S5's five ordered
insertions therefore ends with traversal [(1,1),(1,2),(2,1),(3,1)] and size
4 instead of the specified [(1,3),(2,1),(3,1)] and size 3. -/
theorem C5_merge_count_compares_whole_pair :
    merge_count ((1, 2) : Nat × Nat) (1, 1) = none
    ∧ toList s5final = [(1, 1), (1, 2), (2, 1), (3, 1)]
    ∧ avl_node_size s5final = 4 := by
  refine ⟨by decide, by decide, by decide⟩

/-- C10: when the merge at the root succeeds, insert_at returns successfully
for EVERY index (even one past the tree size), because the merge is
attempted before the index is ever compared with a subtree size; only the
null-subtree base case validates the index. -/
theorem C10_merge_ignores_index (l : Tree α ι) (v : α) (r : Tree α ι)
    (sz : Nat) (bal : Int) (sub : ι) (v2 value : α)
    (mrg : α → α → Option α) (rpre : α → ι) (rcomb : ι → ι → ι) (i : Nat)
    (h : mrg v value = some v2) :
    avl_node_insert_at_index (Tree.node l v r sz bal sub) i value mrg rpre rcomb
      = some (Tree.node l v2 r sz bal sub, true) := by
  simp [avl_node_insert_at_index, h]

/-- Witness for C10 at index 99 on the one-element tree [5]. -/
theorem C10_merge_ignores_index_witness :
    merge_if_equal (5 : Nat) 5 = some 5
    ∧ avl_node_insert_at_index fixT5 99 5 merge_if_equal natPre unitComb
        = some (fixT5, true) :=
  ⟨rfl, C10_merge_ignores_index Tree.nil 5 Tree.nil 1 0 () 5 5
    merge_if_equal natPre unitComb 99 rfl⟩

/-- C7: rotate_left on a node with non-null right child makes the right
child the new root, with the old node as its left child and the pivot's old
left child as the node's new right child; the balance updates are exactly
`n.balance_new = n.balance_old - 1 - max(0, pivot.balance_old)` and
`pivot.balance_new = pivot.balance_old - 1 + min(0, n.balance_new)`, and
when the stored balances were the true height differences, the updated
balances are again the true height(right) - height(left) of each node after
the rotation. -/
theorem C7_rotate_left_balance_update (l pl pr : Tree α ι) (v pv : α) (sz psz : Nat)
    (bal pbal : Int) (sub psub : ι) (rpre : α → ι) (rcomb : ι → ι → ι)
    (hb : bal = (height (Tree.node pl pv pr psz pbal psub) : Int) - height l)
    (hpb : pbal = (height pr : Int) - height pl) :
    ∃ s1 u1 s2 u2,
      rotate_left (Tree.node l v (Tree.node pl pv pr psz pbal psub) sz bal sub) rpre rcomb
        = Tree.node (Tree.node l v pl s1 (bal - 1 - max 0 pbal) u1) pv pr s2
            (pbal - 1 + min 0 (bal - 1 - max 0 pbal)) u2
      ∧ bal - 1 - max 0 pbal = (height pl : Int) - height l
      ∧ pbal - 1 + min 0 (bal - 1 - max 0 pbal)
          = (height pr : Int) - height (Tree.node l v pl s1 (bal - 1 - max 0 pbal) u1) := by
  have harith1 : bal - (1 + max 0 pbal) = bal - 1 - max 0 pbal := by ring
  have harith2 : pbal - (1 - min 0 (bal - 1 - max 0 pbal))
      = pbal - 1 + min 0 (bal - 1 - max 0 pbal) := by ring
  have e1 : bal - 1 - max 0 pbal = (height pl : Int) - height l := by
    rw [hb, hpb]
    rw [height]
    rcases Nat.le_total (height pl) (height pr) with h1 | h1
    · rw [Nat.max_eq_right h1, max_eq_right (by omega)]
      omega
    · rw [Nat.max_eq_left h1, max_eq_left (by omega)]
      omega
  have e2 : pbal - 1 + min 0 (bal - 1 - max 0 pbal)
      = (height pr : Int) - (1 + max (height l) (height pl)) := by
    rw [e1, hpb]
    rcases Nat.le_total (height l) (height pl) with h2 | h2
    · rw [Nat.max_eq_right h2, min_eq_left (by omega)]
      omega
    · rw [Nat.max_eq_left h2, min_eq_right (by omega)]
      omega
  obtain ⟨s1, u1, h1⟩ := avl_update_shape l v pl (bal - (1 + max 0 pbal)) rpre rcomb
  obtain ⟨s2, u2, h2⟩ := avl_update_shape (Tree.node l v pl s1 (bal - (1 + max 0 pbal)) u1)
      pv pr (pbal - (1 - min 0 (bal - (1 + max 0 pbal)))) rpre rcomb
  refine ⟨s1, u1, s2, u2, ?_, e1, ?_⟩
  · rw [rotate_left]
    rw [h1, h2, harith1]
    rw [harith2]
  · rw [height, harith1] at *
    rw [e2]
    push_cast
    ring

/-- Witness for C7 on the steady tree [10, 20] (root 10, right child 20). -/
theorem C7_rotate_left_balance_update_witness :
    ((1 : Int) = (height (Tree.node Tree.nil 20 Tree.nil 1 0 () : Tree Nat Unit) : Int)
        - height (Tree.nil : Tree Nat Unit)
      ∧ (0 : Int) = (height (Tree.nil : Tree Nat Unit) : Int) - height (Tree.nil : Tree Nat Unit))
    ∧ ∃ s1 u1 s2 u2,
      rotate_left (Tree.node Tree.nil 10 (Tree.node Tree.nil 20 Tree.nil 1 0 ()) 2 1 ())
          natPre unitComb
        = Tree.node (Tree.node Tree.nil 10 Tree.nil s1 (1 - 1 - max 0 0) u1) 20 Tree.nil s2
            (0 - 1 + min 0 (1 - 1 - max 0 0)) u2
      ∧ (1 : Int) - 1 - max 0 0 = (height (Tree.nil : Tree Nat Unit) : Int)
          - height (Tree.nil : Tree Nat Unit)
      ∧ (0 : Int) - 1 + min 0 (1 - 1 - max 0 0)
          = (height (Tree.nil : Tree Nat Unit) : Int)
            - height (Tree.node Tree.nil 10 Tree.nil s1 (1 - 1 - max 0 0) u1) :=
  ⟨⟨by decide, by decide⟩,
   C7_rotate_left_balance_update Tree.nil Tree.nil Tree.nil 10 20 2 1 1 0 () ()
     natPre unitComb (by decide) (by decide)⟩

/-- C8: remove_ordered on a value the search does not find (no node on the
search path compares equal to it) never fails: it returns the tree
unchanged, with shrank = false and an absent index, so no balance factor of
any node is modified. -/
theorem C8_remove_ordered_not_found [DecidableEq α] (less : α → α → Bool)
    (rpre : α → ι) (rcomb : ι → ι → ι) (value : α) (t : Tree α ι)
    (h : foundOnPath less t value = false) :
    avl_node_remove_ordered t value less rpre rcomb = some (t, false, none) := by
  induction t with
  | nil => rfl
  | node l v r sz bal sub ihl ihr =>
      rw [foundOnPath] at h
      by_cases hv : v = value
      · rw [if_pos hv] at h
        cases h
      · rw [if_neg hv] at h
        by_cases hless : less value v = true
        · rw [if_pos hless] at h
          simp [avl_node_remove_ordered, hv, hless, ihl h]
        · rw [if_neg hless] at h
          simp only [Bool.not_eq_true] at hless
          simp [avl_node_remove_ordered, hv, hless, ihr h]

/-- Witness for C8: removing the absent value 200 from the tree [100, 300]. -/
theorem C8_remove_ordered_not_found_witness :
    foundOnPath natLess fixT100 200 = false
    ∧ avl_node_remove_ordered fixT100 200 natLess natPre unitComb
        = some (fixT100, false, none) :=
  ⟨by decide, C8_remove_ordered_not_found natLess natPre unitComb 200 fixT100 (by decide)⟩

/-- C9 counterexample: the law remove_at(insert_at(T, i, v), i) = (T, v)
fails as an equality of trees. On the steady tree T = [1, 2] (root 1,
right child 2), inserting 3 at index 2 rebalances (rotate left), and the
subsequent removal at index 2 does not undo the rotation: the result has
root 2 with left child 1, which is a different tree from T even though its
traversal and the returned element are as expected. -/
theorem C9_counterexample_structure_differs :
    (Option.bind (avl_node_insert_at_index fixT12 2 3 no_merge natPre unitComb) fun p =>
        avl_node_remove_at_index p.1 2 natPre unitComb)
      = some (Tree.node (Tree.node Tree.nil 1 Tree.nil 1 0 ()) 2 Tree.nil 2 (-1) (), false, 3)
    ∧ Tree.node (Tree.node Tree.nil 1 Tree.nil 1 0 ()) 2 Tree.nil 2 (-1) () ≠ fixT12
    ∧ steadyStateOk natPre unitComb () fixT12 = true
    ∧ (∀ a : Nat, no_merge a 3 = none)
    ∧ 2 ≤ avl_node_size fixT12 := by
  refine ⟨by decide, by decide, by decide, fun _ => rfl, by decide⟩

/-- C9 (amended): for a steady-state tree, an index i in [0, size] and a
value the merge always refuses, remove_at(insert_at(T, i, v), i) succeeds,
returns exactly v, and restores the in-order traversal of T; the node
structure itself may differ because the insertion may have rebalanced and
the removal does not undo the rotation. -/
theorem C9_remove_after_insert [DecidableEq ι] (rpre : α → ι) (rcomb : ι → ι → ι) (zero : ι)
    (t : Tree α ι) (i : Nat) (value : α) (mrg : α → α → Option α)
    (hwf : steadyStateOk rpre rcomb zero t = true) (hi : i ≤ avl_node_size t)
    (hm : ∀ a, mrg a value = none) :
    ∃ t2 g t3 sh,
      avl_node_insert_at_index t i value mrg rpre rcomb = some (t2, g)
      ∧ avl_node_remove_at_index t2 i rpre rcomb = some (t3, sh, value)
      ∧ toList t3 = toList t := by
  have hsz := steadyStateOk_sizeOk rpre rcomb zero t hwf
  have hlen := size_eq_length t hsz
  have hi2 : i ≤ (toList t).length := hlen ▸ hi
  obtain ⟨t2, g, heq1, hlist, hsz2⟩ := insert_at_spec mrg rpre rcomb value hm t i hsz hi2
  have hlen2 : (toList t2).length = (toList t).length + 1 := by
    rw [hlist]
    exact List.length_insertIdx _ _ hi2
  have hi3 : i < (toList t2).length := by omega
  obtain ⟨t3, sh, e, heq2, hget, herase⟩ := remove_at_spec rpre rcomb t2 i hsz2 hi3
  have hq : (toList t2)[i]? = some value := by
    rw [hlist]
    rw [List.getElem?_eq_getElem (by rw [List.length_insertIdx _ _ hi2]; omega)]
    rw [List.getElem_insertIdx_self _ _ _ hi2]
  have hev : e = value := Option.some.inj (hget.symm.trans hq)
  refine ⟨t2, g, t3, sh, heq1, ?_, ?_⟩
  · rw [heq2, hev]
  · rw [herase, hlist]
    exact List.eraseIdx_insertIdx i (toList t)

/-- Witness for C9's amended theorem: T = [1, 2], i = 2, v = 3. -/
theorem C9_remove_after_insert_witness :
    (steadyStateOk natPre unitComb () fixT12 = true
      ∧ 2 ≤ avl_node_size fixT12
      ∧ ∀ a : Nat, no_merge a 3 = none)
    ∧ ∃ t2 g t3 sh,
      avl_node_insert_at_index fixT12 2 3 no_merge natPre unitComb = some (t2, g)
      ∧ avl_node_remove_at_index t2 2 natPre unitComb = some (t3, sh, 3)
      ∧ toList t3 = toList fixT12 :=
  ⟨⟨by decide, by decide, fun _ => rfl⟩,
   C9_remove_after_insert natPre unitComb () fixT12 2 3 no_merge (by decide) (by decide)
     (fun _ => rfl)⟩

/-- C6: for a steady-state tree and a valid index, remove_at returns the
element at in-order position i and the result's traversal is the input's
with position i erased; in the victim case with two non-null children the
in-order successor is extracted by remove_at(node.right, 0) and assigned as
the surviving node's element, with the returned subtree spliced in as the
right child and the right-shrank adjustment applied; and whenever a shrink
adjustment reaches balance -2 (right shrank, flag set) or +2 (left shrank,
flag set) it rebalances, and the shrank flag reported upward is true iff the
rebalanced root's new balance is 0. -/
theorem C6_remove_at_correct [DecidableEq ι] (rpre : α → ι) (rcomb : ι → ι → ι) (zero : ι)
    (t : Tree α ι) (i : Nat)
    (hwf : steadyStateOk rpre rcomb zero t = true) (hi : i < avl_node_size t)
    (l2 : Tree α ι) (v2 : α) (r2 : Tree α ι) (sz2 : Nat) (bal2 : Int) (sub2 : ι)
    (hl2 : l2.isNil = false) (hr2 : r2.isNil = false)
    (l3 : Tree α ι) (v3 : α) (r3 : Tree α ι) (bal3 : Int) (sz3 : Nat) (sub3 : ι)
    (sh3 : Bool) (hsh3 : sh3 = true) (hbal3 : bal3 - 1 = -2)
    (l4 : Tree α ι) (v4 : α) (r4 : Tree α ι) (bal4 : Int) (sz4 : Nat) (sub4 : ι)
    (sh4 : Bool) (hsh4 : sh4 = true) (hbal4 : bal4 + 1 = 2) :
    ((avl_node_remove_at_index t i rpre rcomb).map fun q => (toList q.1, some q.2.2))
        = some ((toList t).eraseIdx i, (toList t)[i]?)
    ∧ avl_node_remove_at_index (Tree.node l2 v2 r2 sz2 bal2 sub2) (avl_node_size l2) rpre rcomb
        = (match avl_node_remove_at_index r2 0 rpre rcomb with
           | none => none
           | some (r5, sh5, succ) =>
             some ((adjustShrankRight l2 succ r5 bal2 sz2 sub2 sh5 rpre rcomb).1,
                   (adjustShrankRight l2 succ r5 bal2 sz2 sub2 sh5 rpre rcomb).2, v2))
    ∧ ((adjustShrankRight l3 v3 r3 bal3 sz3 sub3 sh3 rpre rcomb).2 = true
        ↔ balanceOf (adjustShrankRight l3 v3 r3 bal3 sz3 sub3 sh3 rpre rcomb).1 = 0)
    ∧ ((adjustShrankLeft l4 v4 r4 bal4 sz4 sub4 sh4 rpre rcomb).2 = true
        ↔ balanceOf (adjustShrankLeft l4 v4 r4 bal4 sz4 sub4 sh4 rpre rcomb).1 = 0) := by
  have hsz := steadyStateOk_sizeOk rpre rcomb zero t hwf
  have hlen := size_eq_length t hsz
  refine ⟨?_, ?_, ?_, ?_⟩
  · obtain ⟨t2, sh, e, heq, hget, herase⟩ := remove_at_spec rpre rcomb t i hsz (hlen ▸ hi)
    rw [heq]
    simp [herase, hget]
  · cases hx : avl_node_remove_at_index r2 0 rpre rcomb with
    | none => simp [avl_node_remove_at_index, hl2, hr2, hx]
    | some p =>
        obtain ⟨r5, sh5, succ⟩ := p
        simp [avl_node_remove_at_index, hl2, hr2, hx]
  · subst hsh3
    simp [adjustShrankRight, hbal3, beq_iff_eq]
  · subst hsh4
    simp [adjustShrankLeft, hbal4, beq_iff_eq]

/-- Witness for C6 on the steady tree [1, 2] at index 1, with concrete
instantiations for the victim-case and shrink-adjustment parts. -/
theorem C6_remove_at_correct_witness :
    (steadyStateOk natPre unitComb () fixT12 = true
      ∧ 1 < avl_node_size fixT12
      ∧ (Tree.node Tree.nil 1 Tree.nil 1 0 () : Tree Nat Unit).isNil = false
      ∧ (Tree.node Tree.nil 3 Tree.nil 1 0 () : Tree Nat Unit).isNil = false
      ∧ (true = true) ∧ ((-1 : Int) - 1 = -2) ∧ ((1 : Int) + 1 = 2))
    ∧ (((avl_node_remove_at_index fixT12 1 natPre unitComb).map
          fun q => (toList q.1, some q.2.2))
        = some ((toList fixT12).eraseIdx 1, (toList fixT12)[1]?)
      ∧ avl_node_remove_at_index
          (Tree.node (Tree.node Tree.nil 1 Tree.nil 1 0 ()) 2
            (Tree.node Tree.nil 3 Tree.nil 1 0 ()) 3 0 ())
          (avl_node_size (Tree.node Tree.nil 1 Tree.nil 1 0 () : Tree Nat Unit))
          natPre unitComb
        = (match avl_node_remove_at_index (Tree.node Tree.nil 3 Tree.nil 1 0 () : Tree Nat Unit)
              0 natPre unitComb with
           | none => none
           | some (r5, sh5, succ) =>
             some ((adjustShrankRight (Tree.node Tree.nil 1 Tree.nil 1 0 ()) succ r5 0 3 ()
                      sh5 natPre unitComb).1,
                   (adjustShrankRight (Tree.node Tree.nil 1 Tree.nil 1 0 ()) succ r5 0 3 ()
                      sh5 natPre unitComb).2, 2))
      ∧ ((adjustShrankRight (Tree.nil : Tree Nat Unit) 7 Tree.nil (-1) 1 () true
            natPre unitComb).2 = true
          ↔ balanceOf (adjustShrankRight (Tree.nil : Tree Nat Unit) 7 Tree.nil (-1) 1 () true
              natPre unitComb).1 = 0)
      ∧ ((adjustShrankLeft (Tree.nil : Tree Nat Unit) 7 Tree.nil 1 1 () true
            natPre unitComb).2 = true
          ↔ balanceOf (adjustShrankLeft (Tree.nil : Tree Nat Unit) 7 Tree.nil 1 1 () true
              natPre unitComb).1 = 0)) :=
  ⟨⟨by decide, by decide, by decide, by decide, rfl, by decide, by decide⟩,
   C6_remove_at_correct natPre unitComb () fixT12 1 (by decide) (by decide)
     (Tree.node Tree.nil 1 Tree.nil 1 0 ()) 2 (Tree.node Tree.nil 3 Tree.nil 1 0 ()) 3 0 ()
     (by decide) (by decide)
     Tree.nil 7 Tree.nil (-1) 1 () true rfl (by decide)
     Tree.nil 7 Tree.nil 1 1 () true rfl (by decide)⟩

end avl
